import Mathlib

/-!
Verification development for the dependency-analysis tool
`scripts/analyze_deps.py`.  Every definition below is a shallow
embedding of the corresponding Python function, translated line by
line from the source; external effects (the filesystem, the `ast`
parser, console output) are made explicit as parameters or returned
data.  Spec-side definitions used for comparison are clearly marked
in their doc comments.
-/

namespace AnalyzeDeps

/-! ## Pattern matcher

Model of `fnmatch.fnmatch(name, pattern)` on POSIX: shell-glob
matching of the whole string, where `*` matches any sequence of
characters (including `/`), `?` matches any single character and any
other character matches itself.  Character classes `[...]` are not
modelled; no pattern occurring in the program uses them.
-/

/-- Glob matching on lists of characters: first argument is the
pattern, second the candidate string.  Structural recursion on the
pattern; the `*` case tries every suffix of the candidate. -/
def globMatch : List Char → List Char → Bool
  | [], s => s.isEmpty
  | p :: ps, s =>
    if p = '*' then (s.tails).any (fun t => globMatch ps t)
    else if p = '?' then
      match s with
      | [] => false
      | _ :: cs => globMatch ps cs
    else
      match s with
      | [] => false
      | c :: cs => (p = c) && globMatch ps cs

/-- `fnmatch.fnmatch(candidate, pattern)`. -/
def fnmatch (candidate pattern : String) : Bool :=
  globMatch pattern.data candidate.data

/-! ## Path utilities

Models of the small amount of `pathlib` behaviour the script uses, for
clean relative POSIX paths (`/`-separated segments, no `..`, no
trailing slash); `"."` denotes the current directory, whose
`pathlib` `name` is the empty string and which has no parents.
-/

/-- Split a character list on a separator character. -/
def splitOnChar (sep : Char) : List Char → List (List Char)
  | [] => [[]]
  | c :: rest =>
    if c = sep then [] :: splitOnChar sep rest
    else
      match splitOnChar sep rest with
      | t :: ts => (c :: t) :: ts
      | [] => [[c]]

/-- The `/`-separated segments of a path string. -/
def pathSegments (p : String) : List String :=
  (splitOnChar '/' p.data).map String.mk

/-- Model of `pathlib.Path(p).name`: the final path segment, which is
empty for `"."` (and for the empty string, since `Path("")` equals
`Path(".")`). -/
def pathlibName (p : String) : String :=
  if p = "." ∨ p = "" then "" else (pathSegments p).getLastD ""

/-- All joined proper non-empty prefixes of a segment list, shortest
first: for `[a, b, c]` this is `[a, a/b]`. -/
def initsJoined : List String → List String
  | [] => []
  | [_] => []
  | s :: rest => s :: (initsJoined rest).map (fun t => s ++ "/" ++ t)

/-- Model of `pathlib.Path(p).parents` as strings, for a clean
relative path: the proper prefixes, immediate parent first, ending
with `"."`; e.g. for `"a/b/c"` it is `["a/b", "a", "."]`. -/
def pathParents (p : String) : List String :=
  (initsJoined (pathSegments p)).reverse ++ ["."]

/-- Model of `pathlib`'s `/` operator rooted at the current
directory: `Path(".") / n` stringifies to `n`, and a child named `n`
of directory `p` stringifies to `p ++ "/" ++ n`. -/
def joinPath (p n : String) : String :=
  if p = "." then n else p ++ "/" ++ n

/-! ## Exclude and allow lists (lines 38-74 of the source) -/

/-- `DEFAULT_EXCLUDES`: the fixed built-in default exclude list. -/
def DEFAULT_EXCLUDES : List String :=
  ["node_modules", ".venv", "venv", "__pycache__", ".git",
   ".pytest_cache", ".coverage", "*.egg-info", "dist", "build",
   ".idea", ".vscode", ".DS_Store", "*.pyc", "*.pyo", "*.pyd",
   ".mypy_cache", ".ruff_cache", "htmlcov", ".env", "*.log"]

/-- `IMPORTANT_FILE_PATTERNS`: the allow-list for the structure
snapshot. -/
def IMPORTANT_FILE_PATTERNS : List String :=
  ["*.py", "*.ini", "*.toml", "*.yaml", "*.yml", "*.json", "*.md",
   "Dockerfile", "requirements.txt", "setup.py", "*.lock"]

/-- `is_important_file(path)`: check the string form of the path
against every pattern in the allow-list. -/
def is_important_file (path : String) : Bool :=
  IMPORTANT_FILE_PATTERNS.any (fun pattern => fnmatch path pattern)

/-- `should_skip_directory(path_str, exclude_patterns)` (lines
138-149): for each pattern, first check every parent directory by
full path and by bare name, then the directory itself by full path
and by bare name. -/
def should_skip_directory (path_str : String) (exclude_patterns : List String) : Bool :=
  exclude_patterns.any (fun pattern =>
    (pathParents path_str).any (fun parent =>
      fnmatch parent pattern || fnmatch (pathlibName parent) pattern)
    || (fnmatch path_str pattern || fnmatch (pathlibName path_str) pattern))

/-! ## Python abstract syntax trees and `find_imports` (lines 80-101)

A Python module is modelled by the statement shapes the extractor
distinguishes: `import` statements (one dotted name per target, as in
`ast.alias.name`), `from ... import` statements (optional module
string, `None` for `from . import x`, plus one name per target),
compound statements that carry nested bodies (functions and classes),
and any other statement.  `ast.parse` is modelled by its outcome: an
`Except` that is an error for a syntax, encoding, or I/O failure.
-/

inductive PyStmt where
  | importStmt (names : List String)
  | importFrom (module : Option String) (names : List String)
  | functionDef (body : List PyStmt)
  | classDef (body : List PyStmt)
  | pass

structure PyModule where
  body : List PyStmt

/-- The child statements `ast.iter_child_nodes` yields for a
statement (restricted to the statement nodes modelled here). -/
def PyStmt.children : PyStmt → List PyStmt
  | .functionDef b => b
  | .classDef b => b
  | _ => []

mutual

/-- Structural size of a statement, used for termination. -/
def stmtSize : PyStmt → Nat
  | .functionDef b => 1 + stmtsSize b
  | .classDef b => 1 + stmtsSize b
  | _ => 1

/-- Structural size of a statement list. -/
def stmtsSize : List PyStmt → Nat
  | [] => 0
  | s :: rest => stmtSize s + stmtsSize rest

end

theorem stmtsSize_append (a b : List PyStmt) :
    stmtsSize (a ++ b) = stmtsSize a + stmtsSize b := by
  induction a with
  | nil => simp [stmtsSize]
  | cons s rest ih => simp [stmtsSize, ih]; omega

theorem stmtsSize_children_lt (s : PyStmt) : stmtsSize s.children < stmtSize s := by
  cases s <;> simp [PyStmt.children, stmtSize, stmtsSize]

/-- Model of `ast.walk`: breadth-first traversal driven by a queue;
each dequeued statement is emitted and its children are appended to
the back of the queue. -/
def walkList : List PyStmt → List PyStmt
  | [] => []
  | s :: rest => s :: walkList (rest ++ s.children)
termination_by l => stmtsSize l
decreasing_by
  have h1 := stmtsSize_children_lt s
  simp [stmtsSize, stmtsSize_append]
  omega

/-- The import references one statement node contributes
(the body of the `for name in node.names` loops): for `ast.Import`
the literal alias names, for `ast.ImportFrom` the module joined to
each name with a dot when `node.module or ''` is non-empty, else the
bare names. -/
def nodeRefs : PyStmt → List String
  | .importStmt names => names
  | .importFrom m names =>
    let module := m.getD ""
    if module ≠ "" then names.map (fun n => module ++ "." ++ n) else names
  | _ => []

/-- `find_imports(file_path)`: on a parse failure print an error line
and return `[]`; on success walk the tree and collect references in
walk order.  The returned pair is (imports, console lines printed). -/
def find_imports (file_path : String) : Except String PyModule → List String × List String
  | .error e => ([], ["Error parsing " ++ file_path ++ ": " ++ e])
  | .ok m => ((walkList m.body).flatMap nodeRefs, [])

/-! ## `analyze_directory` (lines 104-135)

The filesystem a directory analysis sees is modelled by whether the
directory exists and the list of files `dir_path.rglob("*.py")`
yields, each given by its path relative to the scanned directory
together with the outcome of parsing it.
-/

structure PyFile where
  relPath : String
  parsed : Except String PyModule

structure DirFS where
  existsDir : Bool
  pyFiles : List PyFile

structure ModuleInfo where
  file : String
  module : String
  imports : List String
  deriving DecidableEq

structure DirectoryResult where
  name : String
  modules : List ModuleInfo
  deriving DecidableEq

/-- Python `s.replace(pat, rep)` on lists of characters: every
non-overlapping occurrence of `pat`, scanning left to right, is
replaced by `rep`.  (For the empty pattern Python would interleave
`rep` everywhere; the program only uses non-empty patterns, and this
model returns the string unchanged in that case.) -/
def replaceAll (pat rep : List Char) : List Char → List Char
  | [] => []
  | c :: rest =>
    if pat ≠ [] ∧ pat.isPrefixOf (c :: rest) then
      rep ++ replaceAll pat rep (rest.drop (pat.length - 1))
    else
      c :: replaceAll pat rep rest
termination_by s => s.length
decreasing_by
  · simp [List.length_drop]; omega
  · simp

/-- Python `s.replace(pat, rep)` on strings. -/
def pyReplace (s pat rep : String) : String :=
  String.mk (replaceAll pat.data rep.data s.data)

/-- The module identifier derived on lines 117-118:
`str(relative_path).replace("/", ".").replace(".py", "")`. -/
def modulePath (relPath : String) : String :=
  pyReplace (pyReplace relPath "/" ".") ".py" ""

/-- `analyze_directory(directory)`: `None` if the directory does not
exist; otherwise collect a `ModuleInfo` for every file whose import
list is non-empty, and return a `DirectoryResult` named after the
directory (with `/` replaced by `.`) exactly when at least one
`ModuleInfo` was collected. -/
def analyze_directory (directory : String) (fs : DirFS) : Option DirectoryResult :=
  if ¬ fs.existsDir then none
  else
    let all_imports := fs.pyFiles.filterMap (fun f =>
      let imports := (find_imports f.relPath f.parsed).1
      if imports ≠ [] then
        some { file := f.relPath, module := modulePath f.relPath, imports := imports }
      else none)
    if all_imports ≠ [] then
      some { name := pyReplace directory "/" ".", modules := all_imports }
    else none

/-! ## `find_source_directories` (lines 152-193)

The filesystem the discoverer sees is modelled by a directory
predicate and the enumeration `Path(".").glob(pattern)` returns
(directory entries are reported by their string form, which for
children of `Path(".")` carries no leading `"./"`).  Python's
`set`/`sorted(list(...))` pair is modelled by `List.dedup` followed
by an insertion sort; pattern tokens come from `str.split()`.
-/

structure FileSys where
  isDir : String → Bool
  glob : String → List String

/-- Python `search_pattern.split()`: split on runs of whitespace,
discarding empty tokens. -/
def pySplitAux : List Char → List Char → List String
  | [], cur => if cur.isEmpty then [] else [String.mk cur.reverse]
  | c :: rest, cur =>
    if c.isWhitespace then
      if cur.isEmpty then pySplitAux rest []
      else String.mk cur.reverse :: pySplitAux rest []
    else pySplitAux rest (c :: cur)

/-- Python `s.split()` with no separator argument. -/
def pySplit (s : String) : List String :=
  pySplitAux s.data []

/-- Insert into a `≤`-sorted list of strings. -/
def insertStr (x : String) : List String → List String
  | [] => [x]
  | y :: rest => if x ≤ y then x :: y :: rest else y :: insertStr x rest

/-- Model of Python `sorted` on strings (insertion sort by `≤`). -/
def sortStrings : List String → List String
  | [] => []
  | x :: rest => insertStr x (sortStrings rest)

/-- The loop body for one search-pattern token (lines 171-188): first
try the token as a direct path (`Path(".") / pattern` stringifies
back to the token); if it is an existing, non-skipped directory,
accept it alone, otherwise glob the token and keep every matching
directory entry that is not skipped.  Note the source passes only the
caller's `exclude_patterns` to `should_skip_directory`, not the
merged `all_excludes`. -/
def resolve_pattern (fs : FileSys) (exclude_patterns : List String) (pattern : String) :
    List String :=
  if fs.isDir pattern && ! should_skip_directory pattern exclude_patterns then
    [pattern]
  else
    (fs.glob pattern).filter (fun p =>
      fs.isDir p && ! should_skip_directory p exclude_patterns)

/-- The core of `find_source_directories` once the search
specification has been split into tokens: accumulate per-token
results into a duplicate-free set and return it sorted. -/
def find_source_dirs_tokens (fs : FileSys) (exclude_patterns : List String)
    (patterns : List String) : List String :=
  sortStrings (patterns.flatMap (resolve_pattern fs exclude_patterns)).dedup

/-- `find_source_directories(search_pattern, exclude_patterns)`.  The
source computes `all_excludes = exclude_patterns + DEFAULT_EXCLUDES`
(line 163) but never uses it afterwards; the binding is kept here,
unused, exactly as in the source. -/
def find_source_directories (fs : FileSys) (search_pattern : String)
    (exclude_patterns : List String) : List String :=
  let _all_excludes := exclude_patterns ++ DEFAULT_EXCLUDES
  find_source_dirs_tokens fs exclude_patterns (pySplit search_pattern)

/-! ## `generate_project_structure` (lines 196-245)

The tree the snapshotter walks is modelled by a node that is either a
file or a directory with a list of child nodes; `child.name` is a
field of the node, and the string path handed to each recursive call
is the parent's path joined with the child's name, as `pathlib`
stringifies it.  The resulting JSON value is a nested mapping of
subdirectory names plus a `files` list, modelled by `STree`; a
`build_tree` call returns either a bare file name, a subtree, or
nothing.
-/

inductive FSNode where
  | file (name : String)
  | dir (name : String) (children : List FSNode)

/-- The name of a node (`child.name`). -/
def FSNode.name : FSNode → String
  | .file n => n
  | .dir n _ => n

/-- Whether a node is a directory (`child.is_dir()`). -/
def FSNode.isDirNode : FSNode → Bool
  | .file _ => false
  | .dir _ _ => true

mutual

/-- Structural size of a node, used for termination. -/
def nodeSize : FSNode → Nat
  | .file _ => 1
  | .dir _ cs => 1 + nodesSize cs

/-- Structural size of a node list. -/
def nodesSize : List FSNode → Nat
  | [] => 0
  | c :: rest => nodeSize c + nodesSize rest

end

theorem nodeSize_pos (n : FSNode) : 0 < nodeSize n := by
  cases n <;> simp [nodeSize]

/-- Insert into a list of nodes sorted by name. -/
def insertByName (c : FSNode) : List FSNode → List FSNode
  | [] => [c]
  | d :: rest => if c.name ≤ d.name then c :: d :: rest else d :: insertByName c rest

/-- Model of `sorted(path.iterdir())`: children of one directory
compare by their final path segment, i.e. by name. -/
def sortByName : List FSNode → List FSNode
  | [] => []
  | c :: rest => insertByName c (sortByName rest)

theorem nodesSize_insertByName (c : FSNode) (l : List FSNode) :
    nodesSize (insertByName c l) = nodeSize c + nodesSize l := by
  induction l with
  | nil => simp [insertByName, nodesSize]
  | cons d rest ih =>
    simp only [insertByName]
    split
    · simp [nodesSize]
    · simp [nodesSize, ih]; omega

theorem nodesSize_sortByName (l : List FSNode) :
    nodesSize (sortByName l) = nodesSize l := by
  induction l with
  | nil => simp [sortByName]
  | cons c rest ih => simp [sortByName, nodesSize_insertByName, ih, nodesSize]

theorem mem_insertByName {c d : FSNode} {l : List FSNode} :
    d ∈ insertByName c l ↔ d = c ∨ d ∈ l := by
  induction l with
  | nil => simp [insertByName]
  | cons e rest ih =>
    simp only [insertByName]
    split
    · simp
    · simp only [List.mem_cons, ih]
      tauto

theorem mem_sortByName {d : FSNode} {l : List FSNode} :
    d ∈ sortByName l ↔ d ∈ l := by
  induction l with
  | nil => simp [sortByName]
  | cons c rest ih => simp [sortByName, mem_insertByName, ih]

mutual

/-- The nested directory/file mapping the snapshotter produces:
named subtrees for subdirectories together with the `files` list. -/
inductive STree where
  | mk (dirs : SDirs) (files : List String)

/-- An association of subdirectory names to subtrees, in insertion
order. -/
inductive SDirs where
  | nil
  | cons (dirName : String) (t : STree) (rest : SDirs)

end

/-- Whether a subdirectory association is empty. -/
def SDirs.isNilD : SDirs → Bool
  | .nil => true
  | .cons _ _ _ => false

/-- `should_exclude(path)` (lines 210-211): the full string form of
the path checked against every exclude pattern — nothing else. -/
def should_exclude (exclude_patterns : List String) (path : String) : Bool :=
  exclude_patterns.any (fun pattern => fnmatch path pattern)

/-- The final `return tree if tree else None` of `build_tree`: an
empty mapping (no subdirectory entries and no files) collapses to
nothing. -/
def packTree (bl : SDirs × List String) : Option (String ⊕ STree) :=
  if bl.1.isNilD && bl.2.isEmpty then none
  else some (.inr (.mk bl.1 bl.2))

mutual

/-- `build_tree(path, current_depth)` (lines 213-241): `none` models
Python's `None`, `some (.inl s)` a returned file name, and
`some (.inr t)` a returned mapping.  An excluded node yields
nothing; a file yields its bare name when important; a directory at
or past the depth limit yields an empty mapping; otherwise the sorted
children are processed at depth `d + 1` and an empty result collapses
to nothing. -/
def build_tree (excl : List String) (max_depth : Nat) (d : Nat) (path : String) :
    FSNode → Option (String ⊕ STree)
  | .file nm =>
    if should_exclude excl path then none
    else if is_important_file path then some (.inl nm) else none
  | .dir _ cs =>
    if should_exclude excl path then none
    else if max_depth ≤ d then some (.inr (.mk .nil []))
    else packTree (build_list excl max_depth (d + 1) path (sortByName cs))
termination_by n => 2 * nodeSize n
decreasing_by
  simp [nodeSize, nodesSize_sortByName]
  omega

/-- The `for child in sorted(path.iterdir())` loop: each child is
built at the child's path and depth `cd`; a `None` result is
dropped, a directory result is recorded under the child's name and a
file result is appended to the `files` list, preserving iteration
order. -/
def build_list (excl : List String) (max_depth : Nat) (cd : Nat) (path : String) :
    List FSNode → SDirs × List String
  | [] => (.nil, [])
  | c :: rest =>
    match build_tree excl max_depth cd (joinPath path c.name) c with
    | none => build_list excl max_depth cd path rest
    | some (.inl s) =>
      ((build_list excl max_depth cd path rest).1,
        s :: (build_list excl max_depth cd path rest).2)
    | some (.inr t) =>
      (.cons c.name t (build_list excl max_depth cd path rest).1,
        (build_list excl max_depth cd path rest).2)
termination_by l => 2 * nodesSize l + 1
decreasing_by
  all_goals
    have := nodeSize_pos c
    simp [nodesSize]
    omega

end

/-- `generate_project_structure(root_path, exclude_patterns,
max_depth)` (lines 196-245): a single-entry mapping from
`Path(root_path).name` to the tree built from the root at depth 0. -/
def generate_project_structure (root_path : String) (exclude_patterns : List String)
    (max_depth : Nat) (root : FSNode) : List (String × Option (String ⊕ STree)) :=
  [(pathlibName root_path, build_tree exclude_patterns max_depth 0 root_path root)]

/-! ## Spec-side definitions

These definitions follow the specification's words, not the source;
they exist only to be compared with the source-side definitions
above.
-/

mutual

/-- Spec-side (C3): the import references of one statement in source
appearance order — the statement's own references followed by those
of its nested body, i.e. a pre-order traversal. -/
def stmtSourceRefs (s : PyStmt) : List String :=
  nodeRefs s ++ stmtsSourceRefs s.children
termination_by 2 * stmtSize s
decreasing_by
  have := stmtsSize_children_lt s
  omega

/-- Spec-side (C3): source-appearance-order references of a statement
list. -/
def stmtsSourceRefs : List PyStmt → List String
  | [] => []
  | s :: rest => stmtSourceRefs s ++ stmtsSourceRefs rest
termination_by l => 2 * stmtsSize l + 1
decreasing_by
  · have : 0 < stmtSize s := by cases s <;> simp [stmtSize]
    simp [stmtsSize]
    omega
  · have : 0 < stmtSize s := by cases s <;> simp [stmtSize]
    simp [stmtsSize]
    omega

end

/-- Spec-side (C3): the imports of a module in source appearance
order, import statements nested in function or class bodies
included. -/
def sourceOrderImports (m : PyModule) : List String :=
  stmtsSourceRefs m.body

/-- Spec-side (C4): replace every path separator with a dot. -/
def dotifySep (s : List Char) : List Char :=
  s.map (fun c => if c = '/' then '.' else c)

/-- Spec-side (C4): delete every occurrence of the substring `.py`,
scanning left to right, non-overlapping — not only a trailing one. -/
def stripAllPy : List Char → List Char
  | '.' :: 'p' :: 'y' :: rest => stripAllPy rest
  | c :: rest => c :: stripAllPy rest
  | [] => []

/-! ## Output-tree measures and filesystem validity -/

mutual

/-- The names of all files anywhere in a snapshot tree. -/
def STree.fileNames : STree → List String
  | .mk ds files => files ++ SDirs.fileNamesD ds

/-- The file names below a subdirectory association. -/
def SDirs.fileNamesD : SDirs → List String
  | .nil => []
  | .cons _ t rest => STree.fileNames t ++ SDirs.fileNamesD rest

end

mutual

/-- The directory-nesting depth of a snapshot tree: `0` for a tree
with no subdirectories. -/
def STree.depth : STree → Nat
  | .mk ds _ => SDirs.depthsD ds

/-- One more than the largest subtree depth, or `0` when empty. -/
def SDirs.depthsD : SDirs → Nat
  | .nil => 0
  | .cons _ t rest => max (STree.depth t + 1) (SDirs.depthsD rest)

end

/-- A property holding for every subtree of an association. -/
def SDirs.TreesOk (P : STree → Prop) : SDirs → Prop
  | .nil => True
  | .cons _ t rest => P t ∧ SDirs.TreesOk P rest

/-! ## Lemmas about glob matching -/

theorem globMatch_literal {w : List Char} (hw : ∀ c ∈ w, c ≠ '*' ∧ c ≠ '?') :
    ∀ s, globMatch w s = true ↔ w = s := by
  induction w with
  | nil =>
    intro s
    cases s <;> simp [globMatch]
  | cons p ps ih =>
    intro s
    have hp := hw p (List.mem_cons_self p ps)
    have hps : ∀ c ∈ ps, c ≠ '*' ∧ c ≠ '?' := fun c hc => hw c (List.mem_cons_of_mem p hc)
    cases s with
    | nil => simp [globMatch, hp.1, hp.2]
    | cons c cs =>
      simp [globMatch, hp.1, hp.2, ih hps cs]

theorem globMatch_star {w : List Char} (s : List Char) :
    globMatch ('*' :: w) s = true ↔ ∃ t, t <:+ s ∧ globMatch w t = true := by
  simp [globMatch, List.any_eq_true, List.mem_tails]

theorem suffix_through_sep {w a b : List Char} (hw : '/' ∉ w)
    (h : w <:+ a ++ '/' :: b) : w <:+ b := by
  rcases List.suffix_or_suffix_of_suffix h (List.suffix_append a ('/' :: b)) with hc | hc
  · rcases List.suffix_cons_iff.mp hc with he | hb
    · exact absurd (he ▸ List.mem_cons_self '/' b) hw
    · exact hb
  · exact absurd (hc.subset (List.mem_cons_self '/' b)) hw

theorem star_pattern_lift {w a b : List Char} (hw : ∀ c ∈ w, c ≠ '*' ∧ c ≠ '?')
    (hs : '/' ∉ w) (h : globMatch ('*' :: w) (a ++ '/' :: b) = true) :
    globMatch ('*' :: w) b = true := by
  rw [globMatch_star] at h ⊢
  obtain ⟨t, ht, hm⟩ := h
  rw [globMatch_literal hw] at hm
  subst hm
  exact ⟨w, suffix_through_sep hs ht, (globMatch_literal hw w).mpr rfl⟩

theorem exact_pattern_no_sep {w a b : List Char} (hw : ∀ c ∈ w, c ≠ '*' ∧ c ≠ '?')
    (hs : '/' ∉ w) (h : globMatch w (a ++ '/' :: b) = true) : False := by
  rw [globMatch_literal hw] at h
  exact hs (h ▸ (List.mem_append_right a (List.mem_cons_self '/' b)))

/-- A name whose joined path matches an important-file pattern also
matches some allow-list pattern on its own: every allow-list pattern
is either `*` followed by a separator-free literal, or a
separator-free literal. -/
theorem is_important_join {p nm : String}
    (h : is_important_file (joinPath p nm) = true) : is_important_file nm = true := by
  by_cases hp : p = "."
  · simpa [joinPath, hp] using h
  · have hdata : (joinPath p nm).data = p.data ++ '/' :: nm.data := by
      simp [joinPath, hp]
    simp only [is_important_file, IMPORTANT_FILE_PATTERNS, List.any_cons, List.any_nil,
      Bool.or_eq_true, Bool.false_eq_true, or_false] at h ⊢
    simp only [fnmatch, hdata] at h
    rcases h with h | h | h | h | h | h | h | h | h | h | h
    · exact Or.inl (star_pattern_lift (by decide) (by decide) h)
    · exact Or.inr (Or.inl (star_pattern_lift (by decide) (by decide) h))
    · exact Or.inr (Or.inr (Or.inl (star_pattern_lift (by decide) (by decide) h)))
    · exact Or.inr (Or.inr (Or.inr (Or.inl (star_pattern_lift (by decide) (by decide) h))))
    · exact Or.inr (Or.inr (Or.inr (Or.inr (Or.inl
        (star_pattern_lift (by decide) (by decide) h)))))
    · exact Or.inr (Or.inr (Or.inr (Or.inr (Or.inr (Or.inl
        (star_pattern_lift (by decide) (by decide) h))))))
    · exact Or.inr (Or.inr (Or.inr (Or.inr (Or.inr (Or.inr (Or.inl
        (star_pattern_lift (by decide) (by decide) h)))))))
    · exact absurd h (by intro hx; exact exact_pattern_no_sep (by decide) (by decide) hx)
    · exact absurd h (by intro hx; exact exact_pattern_no_sep (by decide) (by decide) hx)
    · exact absurd h (by intro hx; exact exact_pattern_no_sep (by decide) (by decide) hx)
    · exact Or.inr (Or.inr (Or.inr (Or.inr (Or.inr (Or.inr (Or.inr (Or.inr (Or.inr (Or.inr
        (star_pattern_lift (by decide) (by decide) h))))))))))

/-! ## Lemmas about sorting -/

theorem insertStr_perm (x : String) (l : List String) : List.Perm (insertStr x l) (x :: l) := by
  induction l with
  | nil => simp [insertStr]
  | cons y rest ih =>
    simp only [insertStr]
    split
    · exact List.Perm.refl _
    · exact ((ih.cons y).trans (List.Perm.swap x y rest)).symm.symm

theorem sortStrings_perm (l : List String) : List.Perm (sortStrings l) l := by
  induction l with
  | nil => simp [sortStrings]
  | cons x rest ih => exact (insertStr_perm x (sortStrings rest)).trans (ih.cons x)

theorem insertStr_sorted {l : List String} (x : String) (hl : l.Sorted (· ≤ ·)) :
    (insertStr x l).Sorted (· ≤ ·) := by
  induction l with
  | nil => simp [insertStr]
  | cons y rest ih =>
    simp only [insertStr]
    split
    · rename_i hxy
      refine List.sorted_cons.mpr ⟨?_, hl⟩
      intro b hb
      rcases List.mem_cons.mp hb with rfl | hb
      · exact hxy
      · exact le_trans hxy ((List.sorted_cons.mp hl).1 b hb)
    · rename_i hxy
      have hrest := (List.sorted_cons.mp hl).2
      refine List.sorted_cons.mpr ⟨?_, ih hrest⟩
      intro b hb
      rcases List.mem_cons.mp ((insertStr_perm x rest).mem_iff.mp hb) with rfl | hb
      · exact le_of_not_le hxy
      · exact (List.sorted_cons.mp hl).1 b hb

theorem sortStrings_sorted (l : List String) : (sortStrings l).Sorted (· ≤ ·) := by
  induction l with
  | nil => simp [sortStrings]
  | cons x rest ih => exact insertStr_sorted x ih

/-! ## Lemmas about `replaceAll` (for C4) -/

theorem replaceAll_slash_dot (s : List Char) :
    replaceAll ['/'] ['.'] s = dotifySep s := by
  induction s with
  | nil => simp [replaceAll, dotifySep]
  | cons c rest ih =>
    by_cases h : c = '/'
    · subst h
      simp [replaceAll, List.isPrefixOf, dotifySep, ih]
    · have h' : ¬('/' = c) := fun hh => h hh.symm
      simp [replaceAll, List.isPrefixOf, h, h', dotifySep, ih]

theorem stripAllPy_cons_ne {c : Char} {rest : List Char}
    (h : ∀ r', ¬(c = '.' ∧ rest = 'p' :: 'y' :: r')) :
    stripAllPy (c :: rest) = c :: stripAllPy rest := by
  rw [stripAllPy.eq_def]
  split
  · rename_i r heq
    rw [List.cons.injEq] at heq
    exact absurd ⟨heq.1, heq.2⟩ (h r)
  · rename_i c2 r2 hne2 heq
    injection heq with h1 h2
    rw [← h1, ← h2]
  · rename_i heq
    simp at heq

theorem replaceAll_dotpy (s : List Char) :
    replaceAll ['.', 'p', 'y'] [] s = stripAllPy s := by
  induction s using stripAllPy.induct with
  | case1 rest ih =>
    rw [show (('.' :: 'p' :: 'y' :: rest : List Char)) = '.' :: ('p' :: 'y' :: rest) from rfl]
    simp only [replaceAll, List.isPrefixOf]
    simp [stripAllPy, ih]
  | case2 c rest hne ih =>
    have hpre : (['.', 'p', 'y'] : List Char).isPrefixOf (c :: rest) = false := by
      by_contra hx
      have hx' : (['.', 'p', 'y'] : List Char).isPrefixOf (c :: rest) = true := by
        revert hx
        cases (['.', 'p', 'y'] : List Char).isPrefixOf (c :: rest) <;> simp
      obtain ⟨t, ht⟩ := (List.isPrefixOf_iff_prefix.mp hx')
      have ht' : ('.' :: 'p' :: 'y' :: t : List Char) = c :: rest := ht
      rw [List.cons.injEq] at ht'
      exact hne t ht'.1.symm ht'.2.symm
    rw [stripAllPy_cons_ne (fun r' hcr => hne r' hcr.1 hcr.2)]
    simp [replaceAll, hpre, ih]
  | case3 => simp [replaceAll, stripAllPy]

/-- The module derivation of lines 117-118 factored through the
spec-side description: separators become dots and then every
occurrence of `.py` is deleted. -/
theorem modulePath_strips_every_py (rel : String) :
    modulePath rel = String.mk (stripAllPy (dotifySep rel.data)) := by
  simp [modulePath, pyReplace, replaceAll_slash_dot, replaceAll_dotpy]

/-! ## Claim theorems -/

/-- Claim C1 (code bug): the claim says directory discovery applies
the merged caller-plus-default exclude set, so that a directory under
`node_modules` is never returned even with no `--exclude` options.
The source computes the merged list (`all_excludes`, line 163) but
passes only the caller's patterns to `should_skip_directory`, so with
an empty caller list the glob result `node_modules/src` is returned —
even though `should_skip_directory` with the default list would have
skipped it. -/
theorem C1_defaults_not_applied_in_discovery :
    find_source_directories
        { isDir := fun s => s = "node_modules/src",
          glob := fun p => if p = "**/src" then ["node_modules/src"] else [] }
        "**/src" [] = ["node_modules/src"] ∧
    should_skip_directory "node_modules/src" DEFAULT_EXCLUDES = true := by
  constructor
  · decide
  · decide

/-- Claim C10: for the root path `"."` (which `main` always passes),
the persisted `ProjectStructure` is a single-entry mapping whose sole
top-level key is the empty string, because `Path(".").name` is empty. -/
theorem C10_structure_root_key_is_empty_string (excl : List String) (max_depth : Nat)
    (root : FSNode) :
    (generate_project_structure "." excl max_depth root).map Prod.fst = [""] := by
  simp [generate_project_structure, pathlibName]

/-- Claim C5: a plain import statement contributes the literal dotted
name of each target; a from-import contributes `module.symbol` when
the module part is non-empty and the bare symbol when it is absent,
as on the examples `import a.b`, `from a.b import c`,
`from . import c`. -/
theorem C5_extracted_reference_shapes :
    (∀ names, nodeRefs (.importStmt names) = names) ∧
    (∀ (m : String) names, m ≠ "" →
      nodeRefs (.importFrom (some m) names) = names.map (fun n => m ++ "." ++ n)) ∧
    (∀ names, nodeRefs (.importFrom none names) = names) ∧
    (find_imports "f" (.ok ⟨[.importStmt ["a.b"]]⟩)).1 = ["a.b"] ∧
    (find_imports "f" (.ok ⟨[.importFrom (some "a.b") ["c"]]⟩)).1 = ["a.b.c"] ∧
    (find_imports "f" (.ok ⟨[.importFrom none ["c"]]⟩)).1 = ["c"] := by
  refine ⟨fun names => rfl, fun m names hm => ?_, fun names => ?_, ?_, ?_, ?_⟩
  · simp [nodeRefs, hm]
  · simp [nodeRefs]
  · simp [find_imports, walkList, PyStmt.children, nodeRefs]
  · simp [find_imports, walkList, PyStmt.children, nodeRefs]
  · simp [find_imports, walkList, PyStmt.children, nodeRefs]

/-- Witness for C5 at the concrete module string `a.b`. -/
theorem C5_extracted_reference_shapes_witness :
    nodeRefs (.importFrom (some "a.b") ["c"]) = ["a.b.c"] := by
  rw [C5_extracted_reference_shapes.2.1 "a.b" ["c"] (by decide)]
  rfl

/-- Claim C9: a file whose parse fails contributes an empty import
list together with a console report, and the analysis of the
remaining files is exactly what it would have been had the failing
file not been present — a single failure never aborts the run. -/
theorem C9_parse_failure_is_isolated :
    (∀ fp e, (find_imports fp (.error e)).1 = []) ∧
    (∀ fp e, (find_imports fp (.error e)).2 = ["Error parsing " ++ fp ++ ": " ++ e]) ∧
    (∀ dir ex pre post p e,
      analyze_directory dir ⟨ex, pre ++ ⟨p, .error e⟩ :: post⟩ =
        analyze_directory dir ⟨ex, pre ++ post⟩) := by
  refine ⟨fun fp e => rfl, fun fp e => rfl, fun dir ex pre post p e => ?_⟩
  simp [analyze_directory, List.filterMap_append, find_imports]

/-- Counterexample to claim C3: `ast.walk` is breadth-first, so for a
module whose first statement is a function containing `import a` and
whose second statement is `import b`, the recorded order is
`["b", "a"]` while source appearance order is `["a", "b"]`. -/
theorem C3_counterexample :
    (find_imports "f" (.ok ⟨[.functionDef [.importStmt ["a"]], .importStmt ["b"]]⟩)).1 =
      ["b", "a"] ∧
    sourceOrderImports ⟨[.functionDef [.importStmt ["a"]], .importStmt ["b"]]⟩ =
      ["a", "b"] ∧
    (find_imports "f" (.ok ⟨[.functionDef [.importStmt ["a"]], .importStmt ["b"]]⟩)).1 ≠
      sourceOrderImports ⟨[.functionDef [.importStmt ["a"]], .importStmt ["b"]]⟩ := by
  refine ⟨?_, ?_, ?_⟩
  · simp [find_imports, walkList, PyStmt.children, nodeRefs]
  · simp [sourceOrderImports, stmtsSourceRefs, stmtSourceRefs, PyStmt.children, nodeRefs]
  · intro hx
    rw [show (find_imports "f" (.ok ⟨[.functionDef [.importStmt ["a"]],
        .importStmt ["b"]]⟩)).1 = ["b", "a"] by
          simp [find_imports, walkList, PyStmt.children, nodeRefs]] at hx
    rw [show sourceOrderImports ⟨[.functionDef [.importStmt ["a"]], .importStmt ["b"]]⟩ =
        ["a", "b"] by
          simp [sourceOrderImports, stmtsSourceRefs, stmtSourceRefs,
            PyStmt.children, nodeRefs]] at hx
    exact absurd hx (by decide)

mutual

/-- A statement contributes no import references anywhere in its
subtree: its own references are empty and so are all its
descendants'. -/
def refsFreeStmt (s : PyStmt) : Bool :=
  (nodeRefs s).isEmpty && refsFreeList s.children
termination_by 2 * stmtSize s
decreasing_by
  have := stmtsSize_children_lt s
  omega

/-- Every statement of the list is reference-free, subtrees
included. -/
def refsFreeList : List PyStmt → Bool
  | [] => true
  | s :: rest => refsFreeStmt s && refsFreeList rest
termination_by l => 2 * stmtsSize l + 1
decreasing_by
  · have : 0 < stmtSize s := by cases s <;> simp [stmtSize]
    simp [stmtsSize]
    omega
  · have : 0 < stmtSize s := by cases s <;> simp [stmtSize]
    simp [stmtsSize]
    omega

end

theorem refsFreeList_append (a b : List PyStmt) :
    refsFreeList (a ++ b) = (refsFreeList a && refsFreeList b) := by
  induction a with
  | nil =>
    rw [List.nil_append, refsFreeList]
    simp
  | cons s rest ih =>
    rw [List.cons_append, refsFreeList, refsFreeList, ih, Bool.and_assoc]

/-- Reference-free statements appended to the walk queue contribute
nothing: the references collected from the whole walk are exactly
those of the statements of the first list, in order. -/
theorem walk_refs_extra : ∀ l₁ l₂ : List PyStmt,
    (∀ s ∈ l₁, refsFreeList s.children = true) → refsFreeList l₂ = true →
    (walkList (l₁ ++ l₂)).flatMap nodeRefs = l₁.flatMap nodeRefs
  | [], [], _, _ => by
    rw [List.nil_append, walkList]
  | [], s :: rest, _, h₂ => by
    rw [refsFreeList, Bool.and_eq_true] at h₂
    have hs := h₂.1
    rw [refsFreeStmt, Bool.and_eq_true, List.isEmpty_iff] at hs
    have ih := walk_refs_extra [] (rest ++ s.children)
      (fun x hx => absurd hx (List.not_mem_nil x))
      (by rw [refsFreeList_append, h₂.2, hs.2]; rfl)
    rw [List.nil_append] at ih
    rw [List.nil_append, walkList, List.flatMap_cons, hs.1, List.nil_append]
    exact ih
  | s :: rest, l₂, h₁, h₂ => by
    have hchild : refsFreeList s.children = true := h₁ s (List.mem_cons_self s rest)
    have ih := walk_refs_extra rest (l₂ ++ s.children)
      (fun x hx => h₁ x (List.mem_cons_of_mem s hx))
      (by rw [refsFreeList_append, h₂, hchild]; rfl)
    rw [List.cons_append, walkList, List.flatMap_cons, List.append_assoc, ih,
      List.flatMap_cons]
termination_by l₁ l₂ => stmtsSize l₁ + stmtsSize l₂
decreasing_by
  · have := stmtsSize_children_lt s
    simp [stmtsSize, stmtsSize_append]
    omega
  · have := stmtsSize_children_lt s
    simp [stmtsSize, stmtsSize_append]
    omega

theorem refsFree_sourceRefs : ∀ l : List PyStmt, refsFreeList l = true →
    stmtsSourceRefs l = []
  | [], _ => by rw [stmtsSourceRefs]
  | s :: rest, h => by
    rw [refsFreeList, Bool.and_eq_true] at h
    have hs := h.1
    rw [refsFreeStmt, Bool.and_eq_true, List.isEmpty_iff] at hs
    rw [stmtsSourceRefs, stmtSourceRefs, hs.1,
      refsFree_sourceRefs s.children hs.2, refsFree_sourceRefs rest h.2]
    rfl
termination_by l => stmtsSize l
decreasing_by
  · have := stmtsSize_children_lt s
    simp [stmtsSize]
    omega
  · have : 0 < stmtSize s := by cases s <;> simp [stmtSize]
    simp [stmtsSize]
    omega

theorem stmtsSourceRefs_topLevel {l : List PyStmt}
    (h : ∀ s ∈ l, refsFreeList s.children = true) :
    stmtsSourceRefs l = l.flatMap nodeRefs := by
  induction l with
  | nil =>
    rw [stmtsSourceRefs]
    simp
  | cons s rest ih =>
    rw [stmtsSourceRefs, stmtSourceRefs,
      refsFree_sourceRefs s.children (h s (List.mem_cons_self s rest)),
      List.append_nil, List.flatMap_cons,
      ih (fun x hx => h x (List.mem_cons_of_mem s hx))]

/-- Claim C3 as amended: the imports sequence preserves duplicates
and lists references in breadth-first walk order, which coincides
with source appearance order whenever every import statement is a
top-level statement of the module — formalized as: no statement
nested below a top-level statement contributes any import reference;
an import nested in a function or class body is emitted after all
top-level statements' references. -/
theorem C3_amended_walk_order (fp : String) (m : PyModule)
    (h : ∀ s ∈ m.body, refsFreeList s.children = true) :
    (find_imports fp (.ok m)).1 = sourceOrderImports m ∧
    (find_imports "g" (.ok ⟨[.importStmt ["os"], .importStmt ["os"]]⟩)).1 = ["os", "os"] := by
  constructor
  · rw [show (find_imports fp (.ok m)).1 = (walkList m.body).flatMap nodeRefs from rfl]
    have hw := walk_refs_extra m.body [] h (by rw [refsFreeList])
    rw [List.append_nil] at hw
    rw [hw, sourceOrderImports, stmtsSourceRefs_topLevel h]
  · simp [find_imports, walkList, PyStmt.children, nodeRefs]

/-- Counterexample to claim C4: for the analyzed file `a.py.py`
(which has a non-empty import list), the derived module identifier is
`a`, not the `a.py` demanded by "only the trailing source-file suffix
.py stripped": `str.replace(".py", "")` deletes every occurrence. -/
theorem C4_counterexample :
    analyze_directory "d" ⟨true, [⟨"a.py.py", .ok ⟨[.importStmt ["os"]]⟩⟩]⟩ =
      some { name := "d",
             modules := [{ file := "a.py.py", module := "a", imports := ["os"] }] } ∧
    ("a" : String) ≠ "a.py" := by
  constructor
  · simp [analyze_directory, find_imports, walkList, PyStmt.children, nodeRefs,
      modulePath, pyReplace, replaceAll, List.isPrefixOf]
  · decide

/-- Claim C4 as amended: the module identifier is the relative path
with every separator replaced by a dot and then every occurrence of
the substring `.py` deleted (leftmost first, non-overlapping) — not
only the trailing suffix.  For `a.b.py` the module is still `a.b`
and no other dots are removed, but interior `.py` occurrences, as in
`a.py.py`, are removed as well. -/
theorem C4_amended_module_derivation :
    (∀ rel, modulePath rel = String.mk (stripAllPy (dotifySep rel.data))) ∧
    modulePath "a.b.py" = "a.b" ∧
    modulePath "sub/mod.py" = "sub.mod" ∧
    modulePath "a.py.py" = "a" := by
  refine ⟨modulePath_strips_every_py, ?_, ?_, ?_⟩
  · rw [modulePath_strips_every_py]
    decide
  · rw [modulePath_strips_every_py]
    decide
  · rw [modulePath_strips_every_py]
    decide

/-- Claim C6: the directory analyzer returns nothing exactly when the
directory is missing or no file yields a non-empty import list, and
any returned result is named by the directory path with separators
replaced by dots. -/
theorem C6_result_exactly_when_imports :
    (∀ dir (fs : DirFS), analyze_directory dir fs = none ↔
      (fs.existsDir = false ∨ ∀ f ∈ fs.pyFiles, (find_imports f.relPath f.parsed).1 = [])) ∧
    (∀ dir fs r, analyze_directory dir fs = some r → r.name = pyReplace dir "/" ".") := by
  constructor
  · intro dir fs
    rcases fs with ⟨ex, files⟩
    cases ex
    · simp [analyze_directory]
    · simp [analyze_directory, List.filterMap_eq_nil_iff]
  · intro dir fs r h
    unfold analyze_directory at h
    split at h
    · exact Option.noConfusion h
    · simp only [ne_eq] at h
      split at h
      · cases h
        rfl
      · exact Option.noConfusion h

/-- Witness for C6 at a one-file directory `a/b`. -/
theorem C6_result_exactly_when_imports_witness :
    ({ name := "a.b",
       modules := [{ file := "m.py", module := "m", imports := ["os"] }] } :
        DirectoryResult).name = pyReplace "a/b" "/" "." := by
  refine C6_result_exactly_when_imports.2 "a/b"
    ⟨true, [⟨"m.py", .ok ⟨[.importStmt ["os"]]⟩⟩]⟩ _ ?_
  simp [analyze_directory, find_imports, walkList, PyStmt.children, nodeRefs,
    modulePath, pyReplace, replaceAll, List.isPrefixOf]

/-- Counterexample to claim C2: in the structure snapshot, exclusion
checks only the full path string against the patterns, never the bare
name or the ancestors, so with exclude pattern `node_modules` the
directory `pkg/node_modules` — whose bare name matches the pattern —
and its child `pkg/node_modules/sub` both remain in the output. -/
theorem C2_counterexample :
    generate_project_structure "." ["node_modules"] 3
        (.dir "." [.dir "pkg" [.dir "node_modules" [.dir "sub" []]]]) =
      [("", some (.inr (.mk (.cons "pkg" (.mk (.cons "node_modules"
        (.mk (.cons "sub" (.mk .nil []) .nil) []) .nil) []) .nil) [])))] ∧
    fnmatch (pathlibName "pkg/node_modules") "node_modules" = true := by
  constructor
  · simp [generate_project_structure, pathlibName, build_tree, build_list, packTree,
      sortByName, insertByName, joinPath, should_exclude, fnmatch, globMatch,
      FSNode.name, SDirs.isNilD]
  · decide

/-- Claim C2 as amended: in directory discovery a candidate is
skipped iff its full path, its bare name, or any ancestor directory —
by full path or bare name — matches some pattern of the list passed
to the check; in the structure snapshot a candidate is omitted iff
its full path alone matches some pattern, so pattern `node_modules`
does remove `pkg/node_modules/sub` from discovery but not from the
snapshot. -/
theorem C2_exclusion_check_shapes :
    (∀ path excl, should_skip_directory path excl = true ↔
      ∃ pat ∈ excl,
        (∃ par ∈ pathParents path,
          fnmatch par pat = true ∨ fnmatch (pathlibName par) pat = true) ∨
        fnmatch path pat = true ∨ fnmatch (pathlibName path) pat = true) ∧
    (∀ path excl, should_exclude excl path = true ↔ ∃ pat ∈ excl, fnmatch path pat = true) ∧
    (∀ excl, "node_modules" ∈ excl →
      should_skip_directory "pkg/node_modules/sub" excl = true) := by
  refine ⟨fun path excl => ?_, fun path excl => ?_, fun excl h => ?_⟩
  · simp [should_skip_directory, List.any_eq_true]
  · simp [should_exclude, List.any_eq_true]
  · exact List.any_eq_true.mpr ⟨"node_modules", h, by decide⟩

/-- Witness for C2's amended theorem with the pattern list
`["node_modules"]`. -/
theorem C2_exclusion_check_shapes_witness :
    should_skip_directory "pkg/node_modules/sub" ["node_modules"] = true :=
  C2_exclusion_check_shapes.2.2 ["node_modules"] (by decide)

theorem dedup_sorted_eq {l₁ l₂ : List String} (h : List.Perm l₁ l₂) :
    sortStrings l₁.dedup = sortStrings l₂.dedup := by
  have hp : List.Perm (sortStrings l₁.dedup) (sortStrings l₂.dedup) :=
    ((sortStrings_perm _).trans h.dedup).trans (sortStrings_perm _).symm
  exact List.eq_of_perm_of_sorted hp (sortStrings_sorted _) (sortStrings_sorted _)

/-- Claim C8: directory discovery is order-independent — permuting
the space-separated pattern tokens leaves the result unchanged —
idempotent in its tokens, and always returns a sorted, duplicate-free
list. -/
theorem C8_discovery_sorted_duplicate_free_set :
    (∀ (fs : FileSys) excl s₁ s₂, List.Perm (pySplit s₁) (pySplit s₂) →
      find_source_directories fs s₁ excl = find_source_directories fs s₂ excl) ∧
    (∀ (fs : FileSys) excl s, List.Sorted (· ≤ ·) (find_source_directories fs s excl) ∧
      (find_source_directories fs s excl).Nodup) ∧
    (∀ (fs : FileSys) excl toks, find_source_dirs_tokens fs excl (toks ++ toks) =
      find_source_dirs_tokens fs excl toks) := by
  refine ⟨fun fs excl s₁ s₂ h => ?_, fun fs excl s => ⟨?_, ?_⟩, fun fs excl toks => ?_⟩
  · unfold find_source_directories find_source_dirs_tokens
    exact dedup_sorted_eq (h.flatMap_right (resolve_pattern fs excl))
  · unfold find_source_directories find_source_dirs_tokens
    exact sortStrings_sorted _
  · unfold find_source_directories find_source_dirs_tokens
    exact (sortStrings_perm _).nodup_iff.mpr (List.nodup_dedup _)
  · unfold find_source_dirs_tokens
    rw [List.flatMap_append]
    have hperm : List.Perm
        ((toks.flatMap (resolve_pattern fs excl) ++
          toks.flatMap (resolve_pattern fs excl)).dedup)
        ((toks.flatMap (resolve_pattern fs excl)).dedup) := by
      refine (List.perm_ext_iff_of_nodup (List.nodup_dedup _) (List.nodup_dedup _)).mpr ?_
      intro a
      simp [List.mem_dedup]
    exact List.eq_of_perm_of_sorted
      (((sortStrings_perm _).trans hperm).trans (sortStrings_perm _).symm)
      (sortStrings_sorted _) (sortStrings_sorted _)

/-- Witness for C8 with tokens `a b` against `b a` on an empty
filesystem. -/
theorem C8_discovery_sorted_duplicate_free_set_witness :
    find_source_directories ⟨fun _ => false, fun _ => []⟩ "a b" [] =
      find_source_directories ⟨fun _ => false, fun _ => []⟩ "b a" [] :=
  C8_discovery_sorted_duplicate_free_set.1 ⟨fun _ => false, fun _ => []⟩ [] "a b" "b a"
    (by decide)

/-! ## Snapshot invariants (C7) -/

theorem build_tree_inl {excl : List String} {max_depth d : Nat} {path : String}
    {n : FSNode} {s : String}
    (h : build_tree excl max_depth d path n = some (.inl s)) :
    s = n.name ∧ is_important_file path = true := by
  cases n with
  | file nm =>
    simp only [build_tree] at h
    split at h
    · exact Option.noConfusion h
    · split at h
      · rename_i himp
        cases h
        exact ⟨rfl, himp⟩
      · exact Option.noConfusion h
  | dir nm cs =>
    simp only [build_tree] at h
    split at h
    · exact Option.noConfusion h
    · split at h
      · exact Sum.noConfusion (Option.some.inj h)
      · unfold packTree at h
        split at h
        · exact Option.noConfusion h
        · exact Sum.noConfusion (Option.some.inj h)

theorem treesOk_mono {P Q : STree → Prop} (hpq : ∀ t, P t → Q t) :
    ∀ ds, SDirs.TreesOk P ds → SDirs.TreesOk Q ds
  | .nil, _ => by
    rw [SDirs.TreesOk]
    trivial
  | .cons nm t rest, h => by
    rw [SDirs.TreesOk] at h ⊢
    exact ⟨hpq t h.1, treesOk_mono hpq rest h.2⟩

theorem treesOk_fileNamesD {P : STree → Prop}
    (hP : ∀ t, P t → ∀ s ∈ STree.fileNames t, is_important_file s = true) :
    ∀ ds : SDirs, SDirs.TreesOk P ds →
      ∀ s ∈ SDirs.fileNamesD ds, is_important_file s = true
  | .nil, _ => by
    rw [SDirs.fileNamesD]
    simp
  | .cons nm t rest, h => by
    rw [SDirs.TreesOk] at h
    rw [SDirs.fileNamesD]
    intro s hs
    rcases List.mem_append.mp hs with hs | hs
    · exact hP t h.1 s hs
    · exact treesOk_fileNamesD hP rest h.2 s hs

theorem treesOk_depthsD {k : Nat} :
    ∀ ds : SDirs, SDirs.TreesOk (fun t => STree.depth t ≤ k) ds →
      SDirs.depthsD ds ≤ k + 1
  | .nil, _ => by
    rw [SDirs.depthsD]
    omega
  | .cons nm t rest, h => by
    rw [SDirs.TreesOk] at h
    rw [SDirs.depthsD]
    exact max_le (by have := h.1; omega) (treesOk_depthsD rest h.2)

mutual

theorem build_tree_ok (excl : List String) (max_depth d : Nat) (path : String) :
    ∀ (n : FSNode) (t : STree),
      build_tree excl max_depth d path n = some (.inr t) →
      (∀ s ∈ t.fileNames, is_important_file s = true) ∧ t.depth ≤ max_depth - d
  | .file nm, t => fun h => by
    simp only [build_tree] at h
    split at h
    · exact Option.noConfusion h
    · split at h
      · exact Sum.noConfusion (Option.some.inj h)
      · exact Option.noConfusion h
  | .dir nm cs, t => fun h => by
    simp only [build_tree] at h
    split at h
    · exact Option.noConfusion h
    · split at h
      · have ht := Sum.inr.inj (Option.some.inj h)
        rw [← ht]
        constructor
        · rw [STree.fileNames, SDirs.fileNamesD]
          simp
        · rw [STree.depth, SDirs.depthsD]
          omega
      · rename_i hd
        have hA := build_list_ok excl max_depth (d + 1) path (sortByName cs)
        unfold packTree at h
        split at h
        · exact Option.noConfusion h
        · have ht := Sum.inr.inj (Option.some.inj h)
          rw [← ht]
          constructor
          · rw [STree.fileNames]
            intro s hs
            rcases List.mem_append.mp hs with hs | hs
            · exact hA.1 s hs
            · exact treesOk_fileNamesD (fun t' ht' => ht'.1) _ hA.2 s hs
          · rw [STree.depth]
            have hm := treesOk_mono (fun t' (ht' : _ ∧ _) => ht'.2) _ hA.2
            have := treesOk_depthsD _ hm
            omega
termination_by n t => 2 * nodeSize n
decreasing_by
  simp [nodeSize, nodesSize_sortByName]
  omega

theorem build_list_ok (excl : List String) (max_depth cd : Nat) (path : String) :
    ∀ l : List FSNode,
      (∀ s ∈ (build_list excl max_depth cd path l).2, is_important_file s = true) ∧
      SDirs.TreesOk (fun t => (∀ s ∈ t.fileNames, is_important_file s = true) ∧
        t.depth ≤ max_depth - cd) (build_list excl max_depth cd path l).1
  | [] => by
    rw [build_list]
    constructor
    · simp
    · rw [SDirs.TreesOk]
      trivial
  | c :: rest => by
    have ih := build_list_ok excl max_depth cd path rest
    rcases hr : build_tree excl max_depth cd (joinPath path c.name) c with _ | r
    · simp only [build_list, hr]
      exact ih
    · cases r with
      | inl s =>
        simp only [build_list, hr]
        constructor
        · intro x hx
          rcases List.mem_cons.mp hx with rfl | hx
          · have hin := build_tree_inl hr
            rw [hin.1]
            exact is_important_join hin.2
          · exact ih.1 x hx
        · exact ih.2
      | inr tt =>
        simp only [build_list, hr]
        constructor
        · exact ih.1
        · rw [SDirs.TreesOk]
          exact ⟨build_tree_ok excl max_depth cd (joinPath path c.name) c tt hr, ih.2⟩
termination_by l => 2 * nodesSize l + 1
decreasing_by
  all_goals
    have := nodeSize_pos c
    simp [nodesSize]
    omega

end

/-- Claim C7: the structure snapshot only ever records file names
that pass the important-file allow-list, and never expands a
directory beyond the depth limit: every returned mapping built at
depth `d` nests subdirectories at most `max_depth - d` deep, and a
non-excluded directory reached at or past the limit is returned as an
empty mapping (so its children are absent). -/
theorem C7_snapshot_allowlist_and_depth :
    (∀ excl max_depth d path n t,
      build_tree excl max_depth d path n = some (.inr t) →
      (∀ s ∈ t.fileNames, is_important_file s = true) ∧ t.depth ≤ max_depth - d) ∧
    (∀ excl max_depth d path nm cs, max_depth ≤ d →
      should_exclude excl path = false →
      build_tree excl max_depth d path (.dir nm cs) = some (.inr (.mk .nil []))) := by
  constructor
  · intro excl maxd d path n t h
    exact build_tree_ok excl maxd d path n t h
  · intro excl maxd d path nm cs hd hex
    simp [build_tree, hex, hd]

/-- Witness for C7 on a one-file tree at the root. -/
theorem C7_snapshot_allowlist_and_depth_witness :
    (∀ s ∈ (STree.mk .nil ["a.py"] : STree).fileNames, is_important_file s = true) ∧
    (STree.mk .nil ["a.py"] : STree).depth ≤ 3 - 0 :=
  C7_snapshot_allowlist_and_depth.1 [] 3 0 "." (.dir "r" [.file "a.py"])
    (.mk .nil ["a.py"])
    (by simp [build_tree, build_list, packTree, sortByName, insertByName,
      joinPath, should_exclude, SDirs.isNilD, FSNode.name,
      (show is_important_file "a.py" = true by decide)])

/-- Witness for C3's amended theorem on a module that has a
top-level import statement next to a function definition whose body
holds no import statement at all. -/
theorem C3_amended_walk_order_witness :
    (find_imports "w" (.ok ⟨[.functionDef [.pass], .importStmt ["a"]]⟩)).1 =
      sourceOrderImports ⟨[.functionDef [.pass], .importStmt ["a"]]⟩ :=
  (C3_amended_walk_order "w" ⟨[.functionDef [.pass], .importStmt ["a"]]⟩
    (by
      intro s hs
      rcases List.mem_cons.mp hs with rfl | hs
      · simp [PyStmt.children, refsFreeList, refsFreeStmt, nodeRefs]
      · rcases List.mem_cons.mp hs with rfl | hs
        · simp [PyStmt.children, refsFreeList]
        · exact absurd hs (List.not_mem_nil s))).1

end AnalyzeDeps
